import Mathlib

/-!
Shallow embedding of the `chan-signal` crate (src/lib.rs, src/unix.rs,
src/windows.rs) and proofs about it.

Modelling conventions:
* `libc::c_int` becomes `Int`; the `as usize` cast becomes `Int.toNat`.
* A Rust function that can `panic!` / `unreachable!` is embedded as an
  `Option`-returning function, with `none` standing for the panic.
* `sigset_t` becomes a finite set of signal numbers; `pthread_sigmask` with
  `SIG_BLOCK` is set union onto the current thread mask and with
  `SIG_SETMASK` is wholesale replacement.
* The subscription registry `HashMap<Sender<Signal>, BitSet>` becomes an
  association list from channel identifiers to finite sets, updated with
  exactly the `contains_key` / `get_mut` / `insert` branch structure of
  `notify_on`.
* The lazily-run `init` (triggered by the first access to the `HANDLERS`
  lazy static, i.e. by `notify_on`) is embedded as an explicit state
  transformer that also records a trace of its masking/spawning steps.
-/

namespace ChanSignal

/-- OS signal identifier, `libc::c_int` in the source (`type Sig = libc::c_int`). -/
abbrev Sig := Int

/-- Channel-sender identity: `chan::Sender<Signal>` is hashable/comparable and
cloneable; a clone compares equal to the original, so a sender is just a
stable identifier here. -/
abbrev ChanId := Nat

/-! Signal number constants, from `libc` for Linux (the `cfg(target_os = "linux")`
platform the source's `sigset_t` definitions target). -/

def SIGHUP : Sig := 1
def SIGINT : Sig := 2
def SIGQUIT : Sig := 3
def SIGILL : Sig := 4
def SIGTRAP : Sig := 5
def SIGABRT : Sig := 6
def SIGBUS : Sig := 7
def SIGFPE : Sig := 8
def SIGKILL : Sig := 9
def SIGUSR1 : Sig := 10
def SIGSEGV : Sig := 11
def SIGUSR2 : Sig := 12
def SIGPIPE : Sig := 13
def SIGALRM : Sig := 14
def SIGTERM : Sig := 15
def SIGCHLD : Sig := 17
def SIGCONT : Sig := 18
def SIGSTOP : Sig := 19
def SIGTSTP : Sig := 20
def SIGTTIN : Sig := 21
def SIGTTOU : Sig := 22
def SIGURG : Sig := 23
def SIGXCPU : Sig := 24
def SIGXFSZ : Sig := 25
def SIGVTALRM : Sig := 26
def SIGPROF : Sig := 27
def SIGWINCH : Sig := 28
def SIGIO : Sig := 29
def SIGSYS : Sig := 31

/-- The `Signal` enum of src/lib.rs (identical in src/unix.rs). The variant
for SIGIO is called `IOsig` here because the source's variant name collides
with a reserved namespace. -/
inductive Signal where
  | HUP
  | INT
  | QUIT
  | ILL
  | ABRT
  | FPE
  | KILL
  | SEGV
  | PIPE
  | ALRM
  | TERM
  | USR1
  | USR2
  | CHLD
  | CONT
  | STOP
  | TSTP
  | TTIN
  | TTOU
  | BUS
  | PROF
  | SYS
  | TRAP
  | URG
  | VTALRM
  | XCPU
  | XFSZ
  | IOsig
  | WINCH
  | __NonExhaustiveMatch
deriving DecidableEq, Fintype, Repr

/-- `Signal::new(sig: Sig) -> Signal` (src/lib.rs:326). The Rust `match` tests
the scrutinee against the named libc constants in order; the final arm is
`panic!("unsupported signal number")`, embedded as `none`. -/
def Signal.new (sig : Sig) : Option Signal :=
  if sig = SIGHUP then some Signal.HUP
  else if sig = SIGINT then some Signal.INT
  else if sig = SIGQUIT then some Signal.QUIT
  else if sig = SIGILL then some Signal.ILL
  else if sig = SIGABRT then some Signal.ABRT
  else if sig = SIGFPE then some Signal.FPE
  else if sig = SIGKILL then some Signal.KILL
  else if sig = SIGSEGV then some Signal.SEGV
  else if sig = SIGPIPE then some Signal.PIPE
  else if sig = SIGALRM then some Signal.ALRM
  else if sig = SIGTERM then some Signal.TERM
  else if sig = SIGUSR1 then some Signal.USR1
  else if sig = SIGUSR2 then some Signal.USR2
  else if sig = SIGCHLD then some Signal.CHLD
  else if sig = SIGCONT then some Signal.CONT
  else if sig = SIGSTOP then some Signal.STOP
  else if sig = SIGTSTP then some Signal.TSTP
  else if sig = SIGTTIN then some Signal.TTIN
  else if sig = SIGTTOU then some Signal.TTOU
  else if sig = SIGBUS then some Signal.BUS
  else if sig = SIGPROF then some Signal.PROF
  else if sig = SIGSYS then some Signal.SYS
  else if sig = SIGTRAP then some Signal.TRAP
  else if sig = SIGURG then some Signal.URG
  else if sig = SIGVTALRM then some Signal.VTALRM
  else if sig = SIGXCPU then some Signal.XCPU
  else if sig = SIGXFSZ then some Signal.XFSZ
  else if sig = SIGIO then some Signal.IOsig
  else if sig = SIGWINCH then some Signal.WINCH
  else none

/-- `Signal::as_sig(self) -> Sig` (src/lib.rs:361). The hidden
`__NonExhaustiveMatch` arm is `unreachable!()`, embedded as `none`. -/
def Signal.as_sig : Signal → Option Sig
  | Signal.HUP => some SIGHUP
  | Signal.INT => some SIGINT
  | Signal.QUIT => some SIGQUIT
  | Signal.ILL => some SIGILL
  | Signal.ABRT => some SIGABRT
  | Signal.FPE => some SIGFPE
  | Signal.KILL => some SIGKILL
  | Signal.SEGV => some SIGSEGV
  | Signal.PIPE => some SIGPIPE
  | Signal.ALRM => some SIGALRM
  | Signal.TERM => some SIGTERM
  | Signal.USR1 => some SIGUSR1
  | Signal.USR2 => some SIGUSR2
  | Signal.CHLD => some SIGCHLD
  | Signal.CONT => some SIGCONT
  | Signal.STOP => some SIGSTOP
  | Signal.TSTP => some SIGTSTP
  | Signal.TTIN => some SIGTTIN
  | Signal.TTOU => some SIGTTOU
  | Signal.BUS => some SIGBUS
  | Signal.PROF => some SIGPROF
  | Signal.SYS => some SIGSYS
  | Signal.TRAP => some SIGTRAP
  | Signal.URG => some SIGURG
  | Signal.VTALRM => some SIGVTALRM
  | Signal.XCPU => some SIGXCPU
  | Signal.XFSZ => some SIGXFSZ
  | Signal.IOsig => some SIGIO
  | Signal.WINCH => some SIGWINCH
  | Signal.__NonExhaustiveMatch => none

/-- The OS signal numbers of the supported catalog, in the order
`SigSet::subscribable` adds them (src/lib.rs:417). -/
def catalogList : List Sig :=
  [SIGHUP, SIGINT, SIGQUIT, SIGILL, SIGABRT, SIGFPE, SIGKILL,
   SIGSEGV, SIGPIPE, SIGALRM, SIGTERM, SIGUSR1, SIGUSR2,
   SIGCHLD, SIGCONT, SIGSTOP, SIGTSTP, SIGTTIN, SIGTTOU,
   SIGBUS, SIGPROF, SIGSYS, SIGTRAP, SIGURG, SIGVTALRM,
   SIGXCPU, SIGXFSZ, SIGIO, SIGWINCH]

/-- Safe wrapper around `sigset_t` (src/lib.rs:398): a set of OS signal
numbers. -/
structure SigSet where
  sigs : Finset Sig
deriving DecidableEq

/-- `SigSet::empty` (src/lib.rs:401): `sigemptyset`. -/
def SigSet.empty : SigSet := ⟨∅⟩

/-- `SigSet::add` (src/lib.rs:451): `sigaddset`, which on Linux succeeds
exactly for valid signal numbers `1 ..= 64` and reports `EINVAL` (here `none`)
otherwise. -/
def SigSet.add (self : SigSet) (sig : Sig) : Option SigSet :=
  if 1 ≤ sig ∧ sig ≤ 64 then some ⟨insert sig self.sigs⟩ else none

/-- `SigSet::subscribable` (src/lib.rs:417): builds the full catalog from
`empty` by a chain of `add(..).unwrap()` calls, one per catalog signal in the
order of `catalogList`; each `unwrap` is an `Option` bind here, so the chain
is a monadic fold of `add` over the catalog. -/
def SigSet.subscribable : Option SigSet :=
  catalogList.foldlM (fun set sig => set.add sig) SigSet.empty

/-- `SigSet::thread_block_signals` (src/lib.rs:461): `pthread_sigmask` with
`SIG_BLOCK`, i.e. the signals of `self` are added to the calling thread's
current mask (additive, never a replace). Modelled as a function from the
current thread mask to the new one. -/
def SigSet.thread_block_signals (self : SigSet) (mask : SigSet) : SigSet :=
  ⟨mask.sigs ∪ self.sigs⟩

/-- `SigSet::thread_set_signal_mask` (src/lib.rs:468): `pthread_sigmask` with
`SIG_SETMASK`, i.e. the calling thread's mask is replaced wholesale by
`self`. -/
def SigSet.thread_set_signal_mask (self : SigSet) (_mask : SigSet) : SigSet :=
  self

/-! The subscription registry. `HANDLERS : Mutex<HashMap<Sender<Signal>, BitSet>>`
(src/lib.rs:144) maps channel senders to the set of subscribed signal numbers;
the Windows variant (src/windows.rs:19) maps senders to `HashSet<Signal>`.
Both are embedded as association lists over the element type `α` (`α = Nat`
for the POSIX `BitSet` of `usize`, `α = Signal` for the Windows `HashSet`),
updated with exactly the branch structure of `notify_on`. -/

/-- Association-list registry standing for the sender-to-signal-set hash map. -/
abbrev Registry (α : Type) := List (ChanId × Finset α)

/-- `HashMap::contains_key` on the registry. -/
def containsKey {α : Type} (subs : Registry α) (c : ChanId) : Bool :=
  subs.any (fun p => p.1 = c)

/-- `HashMap::get_mut(..).unwrap().insert(..)`: add one signal to the set of
an existing entry. -/
def regInsert {α : Type} [DecidableEq α] (subs : Registry α) (c : ChanId) (x : α) :
    Registry α :=
  subs.map (fun p => if p.1 = c then (p.1, insert x p.2) else p)

/-- The registry update performed by `notify_on` (src/lib.rs:199-207): if the
sender already has an entry, insert the signal into its set; otherwise create
a fresh one-element entry. -/
def regNotifyOn {α : Type} [DecidableEq α] (subs : Registry α) (c : ChanId) (x : α) :
    Registry α :=
  if containsKey subs c then regInsert subs c x
  else subs ++ [(c, {x})]

/-- `HashMap` lookup on the registry. -/
def regLookup {α : Type} (subs : Registry α) (c : ChanId) : Option (Finset α) :=
  (subs.find? (fun p => p.1 = c)).map (fun p => p.2)

/-- The sender identities present in the registry. -/
def keysOf {α : Type} (subs : Registry α) : List ChanId :=
  subs.map (fun p => p.1)

/-! The one-time `init` (src/lib.rs:240-275), run lazily by the first access
to `HANDLERS`. Its four steps are recorded as events so the ordering itself
is part of the model. -/

/-- One observable step of `init`. -/
inductive Event where
  | snapshotMask
  | replaceMask (s : SigSet)
  | spawnDispatcher
deriving DecidableEq

/-- State threaded through `init`: the caller thread's mask, the mask the
spawned dispatcher thread inherited (if spawned), and the event log. -/
structure InitState where
  callerMask : SigSet
  dispMask : Option SigSet
  log : List Event
deriving DecidableEq

/-- `SigSet::current()` at the top of `init`: reads the caller's mask. -/
def stepSnapshot (st : InitState) : SigSet × InitState :=
  (st.callerMask, { st with log := st.log ++ [Event.snapshotMask] })

/-- A `thread_set_signal_mask` call inside `init`: wholesale replace of the
caller's mask. -/
def stepReplaceMask (s : SigSet) (st : InitState) : InitState :=
  { st with callerMask := s, log := st.log ++ [Event.replaceMask s] }

/-- `thread::spawn` inside `init`: the new thread inherits the caller's mask
as it is at spawn time. -/
def stepSpawn (st : InitState) : InitState :=
  { st with dispMask := some st.callerMask,
            log := st.log ++ [Event.spawnDispatcher] }

/-- `init` (src/lib.rs:240): snapshot the current mask, replace it wholesale
with `subscribable()`, spawn the dispatcher thread, then restore the snapshot
wholesale. Each `unwrap` of an OS result is an `Option` bind. -/
def runInit (mask0 : SigSet) : Option InitState := do
  let st0 : InitState := ⟨mask0, none, []⟩
  let (saved_mask, st1) := stepSnapshot st0
  let sub ← SigSet.subscribable
  let st2 := stepReplaceMask sub st1
  let st3 := stepSpawn st2
  let st4 := stepReplaceMask saved_mask st3
  pure st4

/-- Process-wide state visible to the public API on the POSIX path: the
calling thread's signal mask, the `HANDLERS` registry, a counter producing
fresh channel identities, whether the lazy static has been initialized, and
the mask the dispatcher thread inherited (if spawned). -/
structure ProcState where
  mask : SigSet
  registry : Registry Nat
  nextChan : ChanId
  initDone : Bool
  dispatcherMask : Option SigSet
deriving DecidableEq

/-- Lazy initialization of the `HANDLERS` static (src/lib.rs:144-149): the
first access runs `init()`; later accesses do nothing. -/
def ensureInit (st : ProcState) : Option ProcState :=
  if st.initDone then some st
  else do
    let r ← runInit st.mask
    pure { st with mask := r.callerMask,
                   dispatcherMask := r.dispMask,
                   initDone := true }

/-- `block(signals: &[Signal])` (src/lib.rs:221): build a `SigSet` from the
given signals and additively block it for the calling thread. It never
touches `HANDLERS`, so it neither changes the registry nor triggers `init`. -/
def block (st : ProcState) (signals : List Signal) : Option ProcState := do
  let set ← signals.foldlM
    (fun acc s => do
      let n ← Signal.as_sig s
      acc.add n)
    SigSet.empty
  pure { st with mask := set.thread_block_signals st.mask }

/-- `block_all_subscribable()` (src/lib.rs:236): additively block the whole
catalog for the calling thread. -/
def block_all_subscribable (st : ProcState) : Option ProcState := do
  let sub ← SigSet.subscribable
  pure { st with mask := sub.thread_block_signals st.mask }

/-- `notify_on(chan, signal)` (src/lib.rs:199): locking `HANDLERS` forces the
lazy `init`, then the registry is updated with the signal's number (cast
`as usize`, here `Int.toNat`), then `block(&[signal])` runs. -/
def notify_on (st : ProcState) (chan : ChanId) (signal : Signal) :
    Option ProcState := do
  let st1 ← ensureInit st
  let n ← Signal.as_sig signal
  block { st1 with registry := regNotifyOn st1.registry chan n.toNat } [signal]

/-- One notification channel: `chan::sync(cap)` has capacity `cap` and a
FIFO buffer. -/
structure Chan where
  cap : Nat
  buf : List Signal
deriving DecidableEq

/-- `notify(signals)` (src/lib.rs:175): create a fresh buffered channel of
capacity 100 and call `notify_on` for each signal in order; return the
updated state together with the fresh channel's identity and initial
contents. -/
def notify (st : ProcState) (signals : List Signal) :
    Option (ProcState × ChanId × Chan) := do
  let c := st.nextChan
  let st0 := { st with nextChan := c + 1 }
  let st1 ← signals.foldlM (fun acc s => notify_on acc c s) st0
  pure (st1, c, ⟨100, []⟩)

/-- The non-blocking send `chan_select! { default => {}, s.send(..) => {} }`
of the dispatch loop: deliver if the buffer has room, otherwise drop the
value and leave the channel unchanged. (A waiting receiver on a rendezvous
channel is not modelled; capacity 0 always drops.) -/
def trySend (c : Chan) (v : Signal) : Chan :=
  if c.buf.length < c.cap then { c with buf := c.buf ++ [v] } else c

/-- The fan-out of one dispatch-loop iteration (src/lib.rs:256-264): walk the
registry entries in order, skip entries whose set lacks the received signal
number, and perform a non-blocking send to each matching entry. Returns the
updated channels and the identities sent to, in order. -/
def sendFanout (v : Signal) (idx : Nat) (subs : Registry Nat)
    (chans : ChanId → Chan) : (ChanId → Chan) × List ChanId :=
  match subs with
  | [] => (chans, [])
  | (c, sigs) :: rest =>
    if idx ∈ sigs then
      let r := sendFanout v idx rest
        (fun x => if x = c then trySend (chans c) v else chans x)
      (r.1, c :: r.2)
    else sendFanout v idx rest chans

/-- One iteration of the dispatch loop after `wait()` returned `sig`
(src/lib.rs:252-265): map the number back through `Signal::new` (a panic,
i.e. `none`, for an unmapped number) and fan the value out to the registry. -/
def dispatchOnce (subs : Registry Nat) (chans : ChanId → Chan) (sig : Sig) :
    Option ((ChanId → Chan) × List ChanId) :=
  (Signal.new sig).map (fun v => sendFanout v sig.toNat subs chans)

/-! The non-POSIX alternate path (src/windows.rs): a console-event callback
instead of a dispatcher thread, a process-wide `BLOCK : Mutex<HashSet<Signal>>`
instead of a real signal mask, and a registry over `HashSet<Signal>`. -/

namespace Windows

/-- Console event codes (src/windows.rs:14-16); `DWORD` becomes `Nat`. -/
def CTRL_C_EVENT : Nat := 0

/-- Console event code for Ctrl-Break. -/
def CTRL_BREAK_EVENT : Nat := 1

/-- Console event code for console close. -/
def CTRL_CLOSE_EVENT : Nat := 2

/-- The Windows `Signal::new(sig: DWORD)` (src/windows.rs:85): maps the three
handled console event codes to signals and panics (here `none`) on any other
code. -/
def signalNew (sig : Nat) : Option Signal :=
  if sig = CTRL_C_EVENT then some Signal.INT
  else if sig = CTRL_BREAK_EVENT then some Signal.INT
  else if sig = CTRL_CLOSE_EVENT then some Signal.TERM
  else none

/-- Process-wide state of the alternate path: the `BLOCK` set and the
`HANDLERS` registry (src/windows.rs:18-25). -/
structure WinState where
  blocked : Finset Signal
  registry : Registry Signal
deriving DecidableEq

/-- `_block(signals)` (src/windows.rs:60): insert every given signal into the
process-wide `BLOCK` set. No registry entry is touched. -/
def _block (st : WinState) (signals : List Signal) : WinState :=
  { st with blocked := signals.foldl (fun b s => insert s b) st.blocked }

/-- `_notify_on(chan, signal)` (src/windows.rs:44): the same registry update
as the POSIX path, but over `HashSet<Signal>`, followed by `_block([signal])`. -/
def _notify_on (st : WinState) (chan : ChanId) (signal : Signal) : WinState :=
  let st1 := { st with registry := regNotifyOn st.registry chan signal }
  _block st1 [signal]

/-- The plain `s.send(sig)` of the callback (src/windows.rs:36): `chan`'s
`Sender::send` on a buffered synchronous channel delivers if the buffer has
room and otherwise blocks the calling thread until room appears. A blocked
send has no result in this sequential model, hence `none`. -/
def sendBlocking (c : Chan) (v : Signal) : Option Chan :=
  if c.buf.length < c.cap then some { c with buf := c.buf ++ [v] } else none

/-- The registry scan of the callback (src/windows.rs:33-38): walk the
entries in order and `send` (blocking) to each one whose set contains the
signal. -/
def winFanout (sig : Signal) (subs : Registry Signal) (chans : ChanId → Chan) :
    Option (ChanId → Chan) :=
  match subs with
  | [] => some chans
  | (c, sigs) :: rest =>
    if sig ∈ sigs then do
      let ch ← sendBlocking (chans c) sig
      winFanout sig rest (fun x => if x = c then ch else chans x)
    else winFanout sig rest chans

/-- `ctrl_handler(ctrl_type)` (src/windows.rs:27): map the event code to a
signal (panic, `none`, on an unhandled code), decline with `FALSE` if the
signal is not in the `BLOCK` set, otherwise scan the registry, send to every
subscriber of the signal, and report `TRUE`. The returned `Bool` is the
callback's `BOOL` result. -/
def ctrl_handler (st : WinState) (chans : ChanId → Chan) (ctrl_type : Nat) :
    Option (Bool × (ChanId → Chan)) := do
  let sig ← signalNew ctrl_type
  if sig ∉ st.blocked then
    pure (false, chans)
  else do
    let chans1 ← winFanout sig st.registry chans
    pure (true, chans1)

end Windows

/-! Helper lemmas. -/

/-- The signal numbers named by the catalog, for unfolding. -/
lemma sig_constants :
    SIGHUP = 1 ∧ SIGINT = 2 ∧ SIGTERM = 15 ∧ SIGSYS = 31 := by
  decide

/-- Every signal except the hidden variant maps to a number of the catalog,
and that number is a valid argument to `sigaddset`. -/
lemma as_sig_spec (s : Signal) (h : s ≠ Signal.__NonExhaustiveMatch) :
    ∃ n, Signal.as_sig s = some n ∧ n ∈ catalogList ∧ 1 ≤ n ∧ n ≤ 64 := by
  cases s
  case __NonExhaustiveMatch => exact absurd rfl h
  all_goals exact ⟨_, rfl, by decide, by decide, by decide⟩

/-- Two signal sets with the same signals are equal. -/
@[ext] lemma SigSet.ext {s t : SigSet} (h : s.sigs = t.sigs) : s = t := by
  cases s; cases t; cases h; rfl

/-- A fold of `SigSet.add` over valid signal numbers succeeds and unions them
into the accumulator. -/
lemma foldlM_add_eq (l : List Sig) (acc : SigSet)
    (h : ∀ n ∈ l, 1 ≤ n ∧ n ≤ 64) :
    l.foldlM (fun set sig => set.add sig) acc =
      some ⟨acc.sigs ∪ l.toFinset⟩ := by
  induction l generalizing acc with
  | nil => cases acc; simp
  | cons a l ih =>
    have ha := h a (List.mem_cons_self a l)
    have hstep : acc.add a = some ⟨insert a acc.sigs⟩ := by
      simp [SigSet.add, ha]
    rw [List.foldlM_cons, hstep]
    simp only [Option.bind_eq_bind, Option.some_bind]
    rw [ih ⟨insert a acc.sigs⟩ (fun n hn => h n (List.mem_cons_of_mem a hn))]
    congr 1
    ext n
    simp only [Finset.mem_union, Finset.mem_insert, List.mem_toFinset,
      List.mem_cons]
    tauto

/-- `subscribable()` evaluates to exactly the catalog as a finite set. -/
lemma subscribable_eq : SigSet.subscribable = some ⟨catalogList.toFinset⟩ := by
  rw [SigSet.subscribable, foldlM_add_eq catalogList SigSet.empty (by decide)]
  simp [SigSet.empty]

/-- C4: the Signal catalog round-trips losslessly with OS signal numbers:
`Signal::new (Signal::as_sig s) = s` for every non-hidden variant `s`, and
`Signal::as_sig (Signal::new n) = n` for every catalog number `n`. -/
theorem C4_signal_round_trip :
    (∀ s : Signal, s ≠ Signal.__NonExhaustiveMatch →
      ∃ n, Signal.as_sig s = some n ∧ Signal.new n = some s) ∧
    (∀ n ∈ catalogList, ∃ s : Signal,
      Signal.new n = some s ∧ Signal.as_sig s = some n) := by
  constructor
  · intro s h
    cases s
    case __NonExhaustiveMatch => exact absurd rfl h
    all_goals exact ⟨_, rfl, by decide⟩
  · decide

/-- Witness for C4 at `Signal.TERM` and at signal number 15. -/
theorem C4_witness :
    (∃ n, Signal.as_sig Signal.TERM = some n ∧
      Signal.new n = some Signal.TERM) ∧
    (∃ s : Signal, Signal.new 15 = some s ∧ Signal.as_sig s = some 15) :=
  ⟨C4_signal_round_trip.1 Signal.TERM (by decide),
   C4_signal_round_trip.2 15 (by decide)⟩

/-- C5: the number-to-Signal conversion panics (modelled `none`) exactly on
numbers outside the supported catalog, and succeeds on every catalog member;
likewise the Windows event-code conversion panics exactly outside the three
handled console event codes. -/
theorem C5_new_fails_outside_catalog :
    (∀ n : Sig, n ∈ catalogList → ∃ s : Signal, Signal.new n = some s) ∧
    (∀ n : Sig, n ∉ catalogList → Signal.new n = none) ∧
    (∀ k : Nat,
      k ∈ [Windows.CTRL_C_EVENT, Windows.CTRL_BREAK_EVENT,
           Windows.CTRL_CLOSE_EVENT] →
      ∃ s : Signal, Windows.signalNew k = some s) ∧
    (∀ k : Nat,
      k ∉ [Windows.CTRL_C_EVENT, Windows.CTRL_BREAK_EVENT,
           Windows.CTRL_CLOSE_EVENT] →
      Windows.signalNew k = none) := by
  refine ⟨by decide, ?_, by decide, ?_⟩
  · intro n hn
    have e1 : ¬ n = SIGHUP := fun e => (e ▸ hn) (by decide)
    have e2 : ¬ n = SIGINT := fun e => (e ▸ hn) (by decide)
    have e3 : ¬ n = SIGQUIT := fun e => (e ▸ hn) (by decide)
    have e4 : ¬ n = SIGILL := fun e => (e ▸ hn) (by decide)
    have e5 : ¬ n = SIGABRT := fun e => (e ▸ hn) (by decide)
    have e6 : ¬ n = SIGFPE := fun e => (e ▸ hn) (by decide)
    have e7 : ¬ n = SIGKILL := fun e => (e ▸ hn) (by decide)
    have e8 : ¬ n = SIGSEGV := fun e => (e ▸ hn) (by decide)
    have e9 : ¬ n = SIGPIPE := fun e => (e ▸ hn) (by decide)
    have e10 : ¬ n = SIGALRM := fun e => (e ▸ hn) (by decide)
    have e11 : ¬ n = SIGTERM := fun e => (e ▸ hn) (by decide)
    have e12 : ¬ n = SIGUSR1 := fun e => (e ▸ hn) (by decide)
    have e13 : ¬ n = SIGUSR2 := fun e => (e ▸ hn) (by decide)
    have e14 : ¬ n = SIGCHLD := fun e => (e ▸ hn) (by decide)
    have e15 : ¬ n = SIGCONT := fun e => (e ▸ hn) (by decide)
    have e16 : ¬ n = SIGSTOP := fun e => (e ▸ hn) (by decide)
    have e17 : ¬ n = SIGTSTP := fun e => (e ▸ hn) (by decide)
    have e18 : ¬ n = SIGTTIN := fun e => (e ▸ hn) (by decide)
    have e19 : ¬ n = SIGTTOU := fun e => (e ▸ hn) (by decide)
    have e20 : ¬ n = SIGBUS := fun e => (e ▸ hn) (by decide)
    have e21 : ¬ n = SIGPROF := fun e => (e ▸ hn) (by decide)
    have e22 : ¬ n = SIGSYS := fun e => (e ▸ hn) (by decide)
    have e23 : ¬ n = SIGTRAP := fun e => (e ▸ hn) (by decide)
    have e24 : ¬ n = SIGURG := fun e => (e ▸ hn) (by decide)
    have e25 : ¬ n = SIGVTALRM := fun e => (e ▸ hn) (by decide)
    have e26 : ¬ n = SIGXCPU := fun e => (e ▸ hn) (by decide)
    have e27 : ¬ n = SIGXFSZ := fun e => (e ▸ hn) (by decide)
    have e28 : ¬ n = SIGIO := fun e => (e ▸ hn) (by decide)
    have e29 : ¬ n = SIGWINCH := fun e => (e ▸ hn) (by decide)
    simp only [Signal.new, if_neg e1, if_neg e2, if_neg e3, if_neg e4,
      if_neg e5, if_neg e6, if_neg e7, if_neg e8, if_neg e9, if_neg e10,
      if_neg e11, if_neg e12, if_neg e13, if_neg e14, if_neg e15,
      if_neg e16, if_neg e17, if_neg e18, if_neg e19, if_neg e20,
      if_neg e21, if_neg e22, if_neg e23, if_neg e24, if_neg e25,
      if_neg e26, if_neg e27, if_neg e28, if_neg e29]
  · intro k hk
    have e1 : ¬ k = Windows.CTRL_C_EVENT := fun e => (e ▸ hk) (by decide)
    have e2 : ¬ k = Windows.CTRL_BREAK_EVENT := fun e => (e ▸ hk) (by decide)
    have e3 : ¬ k = Windows.CTRL_CLOSE_EVENT := fun e => (e ▸ hk) (by decide)
    simp only [Windows.signalNew, if_neg e1, if_neg e2, if_neg e3]

/-- Witness for C5 at catalog number 2, non-catalog number 16, event code 0
and non-event code 7. -/
theorem C5_witness :
    (∃ s : Signal, Signal.new 2 = some s) ∧ Signal.new 16 = none ∧
    (∃ s : Signal, Windows.signalNew 0 = some s) ∧
    Windows.signalNew 7 = none :=
  ⟨C5_new_fails_outside_catalog.1 2 (by decide),
   C5_new_fails_outside_catalog.2.1 16 (by decide),
   C5_new_fails_outside_catalog.2.2.1 0 (by decide),
   C5_new_fails_outside_catalog.2.2.2 7 (by decide)⟩

/-- C6: `subscribable()` always returns exactly the full fixed catalog (29
signals, no duplicates, nothing else), and `block_all_subscribable` blocks
precisely this set, additively, changing nothing else in the process state. -/
theorem C6_subscribable_full_catalog :
    (∃ S : SigSet, SigSet.subscribable = some S ∧
      S.sigs = catalogList.toFinset ∧
      catalogList.Nodup ∧ catalogList.length = 29) ∧
    (∀ st : ProcState, ∃ st', block_all_subscribable st = some st' ∧
      st'.mask.sigs = st.mask.sigs ∪ catalogList.toFinset ∧
      st'.registry = st.registry ∧ st'.initDone = st.initDone ∧
      st'.nextChan = st.nextChan ∧ st'.dispatcherMask = st.dispatcherMask) := by
  constructor
  · exact ⟨⟨catalogList.toFinset⟩, subscribable_eq, rfl, by decide, by decide⟩
  · intro st
    refine ⟨{ st with mask := ⟨st.mask.sigs ∪ catalogList.toFinset⟩ },
      ?_, rfl, rfl, rfl, rfl, rfl⟩
    unfold block_all_subscribable
    rw [subscribable_eq]
    rfl

/-- `runInit` evaluated: the four steps in source order. -/
lemma runInit_eq (m : SigSet) :
    runInit m = some ⟨m, some ⟨catalogList.toFinset⟩,
      [Event.snapshotMask, Event.replaceMask ⟨catalogList.toFinset⟩,
       Event.spawnDispatcher, Event.replaceMask m]⟩ := by
  unfold runInit
  rw [subscribable_eq]
  rfl

/-- C8: one-time initialization performs snapshot, wholesale replace with the
full subscribable set, dispatcher spawn, and only then the wholesale restore,
in exactly this order; consequently the spawned dispatcher inherits the full
catalog as its mask and the caller ends with its original mask. -/
theorem C8_init_ordering (mask0 : SigSet) :
    ∃ r : InitState, runInit mask0 = some r ∧
      r.log = [Event.snapshotMask, Event.replaceMask ⟨catalogList.toFinset⟩,
               Event.spawnDispatcher, Event.replaceMask mask0] ∧
      r.log.take 3 = [Event.snapshotMask,
        Event.replaceMask ⟨catalogList.toFinset⟩, Event.spawnDispatcher] ∧
      r.log.getLast? = some (Event.replaceMask mask0) ∧
      r.dispMask = some ⟨catalogList.toFinset⟩ ∧
      r.callerMask = mask0 := by
  exact ⟨_, runInit_eq mask0, rfl, rfl, rfl, rfl, rfl⟩

/-- Reduction of a monadic bind on a present optional value, as a `rfl`
rewrite that leaves binds on unknown heads alone. -/
lemma opt_some_bind {α β : Type} (x : α) (f : α → Option β) :
    ((some x : Option α) >>= f) = f x := rfl

/-- The same reduction for a bind on `pure`. -/
lemma opt_pure_bind {α β : Type} (x : α) (f : α → Option β) :
    ((pure x : Option α) >>= f) = f x := rfl

/-- The same reduction for `Option.bind` spelled out. -/
lemma opt_bind_some {α β : Type} (x : α) (f : α → Option β) :
    Option.bind (some x) f = f x := rfl

/-- Unrolling the head of the set-building fold of `block`. -/
lemma foldlM_sig_cons (a : Signal) (l : List Signal) (acc : SigSet) :
    (a :: l).foldlM (fun acc s => do
        let n ← Signal.as_sig s
        acc.add n) acc =
      (do
        let n ← Signal.as_sig a
        let acc2 ← acc.add n
        l.foldlM (fun acc s => do
          let n ← Signal.as_sig s
          acc.add n) acc2) := by
  rw [List.foldlM_cons]
  cases Signal.as_sig a <;> rfl

/-- The set-building fold of `block` on signals that are not the hidden
variant: it succeeds and collects exactly their numbers. -/
lemma foldlM_sig_eq (l : List Signal) (acc : SigSet)
    (h : ∀ s ∈ l, s ≠ Signal.__NonExhaustiveMatch) :
    l.foldlM (fun acc s => do
        let n ← Signal.as_sig s
        acc.add n) acc =
      some ⟨acc.sigs ∪ (l.filterMap Signal.as_sig).toFinset⟩ := by
  induction l generalizing acc with
  | nil => cases acc; simp
  | cons a l ih =>
    obtain ⟨n, hn, _, h1, h64⟩ :=
      as_sig_spec a (h a (List.mem_cons_self a l))
    have hstep : acc.add n = some ⟨insert n acc.sigs⟩ := by
      simp [SigSet.add, h1, h64]
    rw [foldlM_sig_cons, hn, opt_some_bind, hstep, opt_some_bind]
    rw [ih ⟨insert n acc.sigs⟩ (fun s hs => h s (List.mem_cons_of_mem a hs))]
    congr 1
    ext m
    simp only [Finset.mem_union, Finset.mem_insert, List.mem_toFinset,
      List.mem_filterMap, List.mem_cons]
    constructor
    · rintro (⟨rfl | hm⟩ | ⟨s, hs, he⟩)
      · exact Or.inr ⟨a, Or.inl rfl, hn⟩
      · exact Or.inl hm
      · exact Or.inr ⟨s, Or.inr hs, he⟩
    · rintro (hm | ⟨s, rfl | hs, he⟩)
      · exact Or.inl (Or.inr hm)
      · exact Or.inl (Or.inl (by rw [hn] at he; injection he with h2; exact h2.symm))
      · exact Or.inr ⟨s, hs, he⟩

/-- `block` evaluated on signals that are not the hidden variant. -/
lemma block_eq (st : ProcState) (signals : List Signal)
    (h : ∀ s ∈ signals, s ≠ Signal.__NonExhaustiveMatch) :
    block st signals = some { st with
      mask := ⟨st.mask.sigs ∪
        ((signals.filterMap Signal.as_sig).toFinset : Finset Sig)⟩ } := by
  unfold block
  rw [foldlM_sig_eq signals SigSet.empty h, opt_some_bind]
  rfl

/-- C7: `block(signals)` additively blocks exactly the numbers of the given
signals for the calling thread, leaves the blocked status of every other
signal unchanged, and creates no registry entry (nor any other state change). -/
theorem C7_block_additive_frame (st : ProcState) (signals : List Signal)
    (h : ∀ s ∈ signals, s ≠ Signal.__NonExhaustiveMatch) :
    ∃ st', block st signals = some st' ∧
      (∀ n : Sig, n ∈ st'.mask.sigs ↔
        (n ∈ st.mask.sigs ∨ ∃ s ∈ signals, Signal.as_sig s = some n)) ∧
      (∀ n : Sig, (∀ s ∈ signals, Signal.as_sig s ≠ some n) →
        (n ∈ st'.mask.sigs ↔ n ∈ st.mask.sigs)) ∧
      st'.registry = st.registry ∧ st'.initDone = st.initDone ∧
      st'.nextChan = st.nextChan ∧ st'.dispatcherMask = st.dispatcherMask := by
  refine ⟨_, block_eq st signals h, ?_, ?_, rfl, rfl, rfl, rfl⟩
  · intro n
    simp only [Finset.mem_union, List.mem_toFinset, List.mem_filterMap]
  · intro n hn
    simp only [Finset.mem_union, List.mem_toFinset, List.mem_filterMap]
    constructor
    · rintro (hm | ⟨s, hs, he⟩)
      · exact hm
      · exact absurd he (hn s hs)
    · exact fun hm => Or.inl hm

/-- Witness for C7: blocking `[TERM]` from the empty mask yields a state whose
mask contains 15. -/
theorem C7_witness :
    ∃ st', block ⟨⟨∅⟩, [], 0, false, none⟩ [Signal.TERM] = some st' ∧
      (15 : Sig) ∈ st'.mask.sigs ∧ st'.registry = [] := by
  obtain ⟨st', hb, hm, _, hreg, _⟩ :=
    C7_block_additive_frame ⟨⟨∅⟩, [], 0, false, none⟩ [Signal.TERM]
      (by decide)
  exact ⟨st', hb, (hm 15).2 (Or.inr ⟨Signal.TERM, by decide, by decide⟩), hreg⟩

/-! Registry lemmas. -/

/-- Membership of a signal in the set a channel is registered for. -/
def lookupMem {α : Type} (subs : Registry α) (c : ChanId) (x : α) : Prop :=
  ∃ S, regLookup subs c = some S ∧ x ∈ S

/-- `contains_key` agrees with key membership. -/
lemma containsKey_iff {α : Type} (subs : Registry α) (c : ChanId) :
    containsKey subs c = true ↔ c ∈ keysOf subs := by
  simp [containsKey, keysOf, List.any_eq_true, List.mem_map]

/-- Unfolding of `regLookup` on a cons cell. -/
lemma regLookup_cons {α : Type} (p : ChanId × Finset α) (rest : Registry α)
    (c : ChanId) :
    regLookup (p :: rest) c =
      if p.1 = c then some p.2 else regLookup rest c := by
  by_cases hp : p.1 = c
  · rw [if_pos hp]
    unfold regLookup
    rw [List.find?_cons_of_pos]
    · rfl
    · simpa using hp
  · rw [if_neg hp]
    unfold regLookup
    rw [List.find?_cons_of_neg]
    simpa using hp

/-- Unfolding of `containsKey` on a cons cell. -/
lemma containsKey_cons {α : Type} (p : ChanId × Finset α) (rest : Registry α)
    (c : ChanId) :
    containsKey (p :: rest) c = (decide (p.1 = c) || containsKey rest c) := by
  simp [containsKey, List.any_cons]

/-- `contains_key` agrees with lookup success. -/
lemma containsKey_eq_isSome {α : Type} (subs : Registry α) (c : ChanId) :
    containsKey subs c = (regLookup subs c).isSome := by
  induction subs with
  | nil => rfl
  | cons p rest ih =>
    rw [containsKey_cons, regLookup_cons]
    by_cases hp : p.1 = c
    · simp [hp]
    · simp [hp, ih]

/-- `regInsert` looks up as a map over the original lookup. -/
lemma regLookup_regInsert {α : Type} [DecidableEq α] (subs : Registry α)
    (c : ChanId) (x : α) (c' : ChanId) :
    regLookup (regInsert subs c x) c' =
      if c' = c then (regLookup subs c).map (fun S => insert x S)
      else regLookup subs c' := by
  induction subs with
  | nil => by_cases hcc : c' = c <;> simp [regInsert, regLookup, hcc]
  | cons p rest ih =>
    rw [show regInsert (p :: rest) c x =
      (if p.1 = c then (p.1, insert x p.2) else p) :: regInsert rest c x
      from rfl]
    by_cases hcc : c' = c
    · rw [if_pos hcc]
      by_cases hpc : p.1 = c
      · have hpc' : p.1 = c' := hpc.trans hcc.symm
        rw [if_pos hpc, regLookup_cons, regLookup_cons, if_pos hpc',
          if_pos hpc]
        rfl
      · have hpc' : ¬ p.1 = c' := fun e => hpc (e.trans hcc)
        rw [if_neg hpc, regLookup_cons, regLookup_cons, if_neg hpc',
          if_neg hpc, ih, if_pos hcc]
    · rw [if_neg hcc]
      by_cases hpc : p.1 = c
      · have hpc' : ¬ p.1 = c' := fun e => hcc (e.symm.trans hpc)
        rw [if_pos hpc, regLookup_cons, regLookup_cons, if_neg hpc',
          if_neg hpc', ih, if_neg hcc]
      · rw [if_neg hpc, regLookup_cons, regLookup_cons]
        by_cases hpc' : p.1 = c'
        · rw [if_pos hpc', if_pos hpc']
        · rw [if_neg hpc', if_neg hpc', ih, if_neg hcc]

/-- Lookup across an appended registry segment. -/
lemma regLookup_append {α : Type} (l1 l2 : Registry α) (c : ChanId) :
    regLookup (l1 ++ l2) c =
      if (regLookup l1 c).isSome then regLookup l1 c else regLookup l2 c := by
  induction l1 with
  | nil => simp [regLookup]
  | cons p rest ih =>
    rw [List.cons_append, regLookup_cons, regLookup_cons]
    by_cases hp : p.1 = c
    · rw [if_pos hp, if_pos hp]
      simp
    · rw [if_neg hp, if_neg hp]
      exact ih

/-- The registry update of `notify_on`, characterised on lookups: the target
sender's set gains the signal (starting from the empty set if absent), every
other sender's entry is untouched. -/
lemma regLookup_regNotifyOn {α : Type} [DecidableEq α] (subs : Registry α)
    (c : ChanId) (x : α) (c' : ChanId) :
    regLookup (regNotifyOn subs c x) c' =
      if c' = c then some (insert x ((regLookup subs c).getD ∅))
      else regLookup subs c' := by
  unfold regNotifyOn
  by_cases hk : containsKey subs c
  · rw [if_pos hk, regLookup_regInsert]
    have hsome : (regLookup subs c).isSome := by
      rw [← containsKey_eq_isSome]; exact hk
    obtain ⟨S, hS⟩ := Option.isSome_iff_exists.mp hsome
    by_cases hcc : c' = c <;> simp [hcc, hS]
  · rw [if_neg hk, regLookup_append]
    have hnone : regLookup subs c = none := by
      rw [← Option.not_isSome_iff_eq_none]
      intro hs
      exact hk (by rw [containsKey_eq_isSome]; exact hs)
    by_cases hcc : c' = c
    · rw [if_pos hcc, hcc, hnone]
      simp [regLookup_cons, insert_emptyc_eq]
    · rw [if_neg hcc]
      by_cases hsome : (regLookup subs c').isSome
      · rw [if_pos hsome]
      · rw [if_neg hsome, Option.not_isSome_iff_eq_none.mp hsome,
          regLookup_cons, if_neg (fun e => hcc e.symm)]
        rfl

/-- Membership form of `regLookup_regNotifyOn`. -/
lemma lookupMem_regNotifyOn {α : Type} [DecidableEq α] (subs : Registry α)
    (c : ChanId) (x : α) (c' : ChanId) (m : α) :
    lookupMem (regNotifyOn subs c x) c' m ↔
      (lookupMem subs c' m ∨ (c' = c ∧ m = x)) := by
  unfold lookupMem
  rw [regLookup_regNotifyOn]
  by_cases hcc : c' = c
  · rw [if_pos hcc]
    cases hL : regLookup subs c with
    | none =>
      simp only [hL, Option.getD_none]
      constructor
      · rintro ⟨S', hS', hm⟩
        injection hS' with h2
        rw [← h2] at hm
        rcases Finset.mem_insert.mp hm with rfl | hm2
        · exact Or.inr ⟨hcc, rfl⟩
        · exact absurd hm2 (Finset.not_mem_empty m)
      · rintro (⟨S', hS', hm⟩ | ⟨-, rfl⟩)
        · rw [hcc, hL] at hS'
          exact Option.noConfusion hS'
        · exact ⟨_, rfl, Finset.mem_insert.mpr (Or.inl rfl)⟩
    | some S =>
      simp only [hL, Option.getD_some]
      constructor
      · rintro ⟨S', hS', hm⟩
        injection hS' with h2
        rw [← h2] at hm
        rcases Finset.mem_insert.mp hm with rfl | hm2
        · exact Or.inr ⟨hcc, rfl⟩
        · exact Or.inl ⟨S, by rw [hcc]; exact hL, hm2⟩
      · rintro (⟨S', hS', hm⟩ | ⟨-, rfl⟩)
        · rw [hcc, hL] at hS'
          injection hS' with h2
          exact ⟨_, rfl, Finset.mem_insert.mpr (Or.inr (by rw [h2]; exact hm))⟩
        · exact ⟨_, rfl, Finset.mem_insert.mpr (Or.inl rfl)⟩
  · simp [if_neg hcc, hcc]

/-- Keys after the registry update of `notify_on`. -/
lemma keysOf_regNotifyOn {α : Type} [DecidableEq α] (subs : Registry α)
    (c : ChanId) (x : α) :
    keysOf (regNotifyOn subs c x) =
      if containsKey subs c then keysOf subs else keysOf subs ++ [c] := by
  unfold regNotifyOn
  by_cases hk : containsKey subs c
  · rw [if_pos hk, if_pos hk]
    unfold keysOf regInsert
    rw [List.map_map]
    apply List.map_congr_left
    intro p _
    by_cases hp : p.1 = c <;> simp [hp]
  · rw [if_neg hk, if_neg hk]
    simp [keysOf]

/-- The registry update of `notify_on` preserves key uniqueness. -/
lemma nodup_regNotifyOn {α : Type} [DecidableEq α] (subs : Registry α)
    (c : ChanId) (x : α) (h : (keysOf subs).Nodup) :
    (keysOf (regNotifyOn subs c x)).Nodup := by
  rw [keysOf_regNotifyOn]
  by_cases hk : containsKey subs c
  · rwa [if_pos hk]
  · rw [if_neg hk]
    have hc : c ∉ keysOf subs := fun hm => hk ((containsKey_iff subs c).mpr hm)
    simp [List.nodup_append, h, hc]

/-- `containsKey` after the registry update of `notify_on`. -/
lemma containsKey_regNotifyOn {α : Type} [DecidableEq α] (subs : Registry α)
    (c : ChanId) (x : α) (c' : ChanId) :
    (containsKey (regNotifyOn subs c x) c' = true) ↔
      (containsKey subs c' = true ∨ c' = c) := by
  by_cases hk : containsKey subs c
  · rw [containsKey_iff, keysOf_regNotifyOn, if_pos hk]
    constructor
    · exact fun hm => Or.inl ((containsKey_iff subs c').mpr hm)
    · rintro (hm | rfl)
      · exact (containsKey_iff subs c').mp hm
      · exact (containsKey_iff subs c').mp hk
  · rw [containsKey_iff, keysOf_regNotifyOn, if_neg hk]
    rw [List.mem_append]
    simp only [List.mem_singleton]
    rw [← containsKey_iff]

/-- `lookupMem` is impossible for an unregistered sender. -/
lemma not_lookupMem_of_not_mem_keys {α : Type} (subs : Registry α)
    (c : ChanId) (m : α) (hc : c ∉ keysOf subs) : ¬ lookupMem subs c m := by
  rintro ⟨S, hS, -⟩
  have hck : containsKey subs c = true := by
    rw [containsKey_eq_isSome, hS]
    rfl
  exact hc ((containsKey_iff subs c).mp hck)

/-- `notify_on` evaluated: lazy init runs (first call only), the registry
gains the signal's number for the sender, and exactly the requested signal is
additionally blocked for the calling thread. -/
lemma notify_on_eq (st : ProcState) (c : ChanId) (s : Signal) (n : Sig)
    (hn : Signal.as_sig s = some n) :
    notify_on st c s = some
      ⟨⟨st.mask.sigs ∪ {n}⟩,
       regNotifyOn st.registry c n.toNat,
       st.nextChan, true,
       if st.initDone then st.dispatcherMask
       else some ⟨catalogList.toFinset⟩⟩ := by
  have hne : s ≠ Signal.__NonExhaustiveMatch := by
    intro e
    rw [e] at hn
    exact Option.noConfusion hn
  have hmem : ∀ s' ∈ [s], s' ≠ Signal.__NonExhaustiveMatch := by
    intro s' hs'
    rw [List.mem_singleton] at hs'
    rwa [hs']
  unfold notify_on ensureInit
  by_cases hd : st.initDone
  · rw [if_pos hd, opt_some_bind, hn, opt_some_bind, block_eq _ [s] hmem,
      if_pos hd]
    simp only [List.filterMap_cons, List.filterMap_nil, hn,
      List.toFinset_cons, List.toFinset_nil, insert_emptyc_eq]
    rw [hd]
  · rw [if_neg hd, runInit_eq, opt_some_bind, opt_pure_bind, hn,
      opt_some_bind, block_eq _ [s] hmem, if_neg hd]
    simp only [List.filterMap_cons, List.filterMap_nil, hn,
      List.toFinset_cons, List.toFinset_nil, insert_emptyc_eq]

/-- C1 counterexample: from an empty mask, `notify_on` for `HUP` leaves
signal number 2 (`INT`, a catalog member) unblocked for the calling thread,
so the whole catalog is not blocked; only the requested number 1 is. -/
theorem C1_counterexample :
    ((notify_on ⟨⟨∅⟩, [], 0, false, none⟩ 0 Signal.HUP).map
      (fun st' => (decide ((2 : Sig) ∈ st'.mask.sigs),
                   decide ((1 : Sig) ∈ st'.mask.sigs))) = some (false, true)) ∧
    (2 : Sig) ∈ catalogList := by
  rw [notify_on_eq ⟨⟨∅⟩, [], 0, false, none⟩ 0 Signal.HUP 1 rfl]
  exact ⟨rfl, by decide⟩

/-- C1 (amended): on the POSIX path, `notify_on(sender, signal)` additively
blocks only the requested signal for the calling thread; the full subscribable
catalog is installed only transiently during one-time initialization (and is
what the dispatcher thread inherits), and the subscriber's registry set, for
a fresh sender, holds exactly the requested signal, so only it is delivered. -/
theorem C1_notify_on_blocks_only_requested (st : ProcState) (c : ChanId)
    (s : Signal) (h : s ≠ Signal.__NonExhaustiveMatch) :
    ∃ n st', Signal.as_sig s = some n ∧ notify_on st c s = some st' ∧
      st'.mask.sigs = st.mask.sigs ∪ {n} ∧
      (∀ m : Sig, m ∈ st'.mask.sigs ↔ (m ∈ st.mask.sigs ∨ m = n)) ∧
      (st.initDone = false →
        st'.dispatcherMask = some ⟨catalogList.toFinset⟩) ∧
      (c ∉ keysOf st.registry →
        ∀ m : Nat, lookupMem st'.registry c m ↔ m = n.toNat) := by
  obtain ⟨n, hn, -, -, -⟩ := as_sig_spec s h
  refine ⟨n, _, hn, notify_on_eq st c s n hn, rfl, ?_, ?_, ?_⟩
  · intro m
    simp [Finset.mem_union]
  · intro hd
    simp [hd]
  · intro hc m
    have hstep := lookupMem_regNotifyOn st.registry c n.toNat c m
    constructor
    · intro hmem
      rcases hstep.mp hmem with hold | ⟨-, rfl⟩
      · exact absurd hold (not_lookupMem_of_not_mem_keys st.registry c m hc)
      · rfl
    · rintro rfl
      exact hstep.mpr (Or.inr ⟨rfl, rfl⟩)

/-- Witness for C1 (amended) at a fresh state and `Signal.HUP`. -/
theorem C1_witness :
    ∃ n st', Signal.as_sig Signal.HUP = some n ∧
      notify_on ⟨⟨∅⟩, [], 7, false, none⟩ 3 Signal.HUP = some st' ∧
      st'.mask.sigs = (⟨∅⟩ : SigSet).sigs ∪ {n} ∧
      (∀ m : Sig, m ∈ st'.mask.sigs ↔
        (m ∈ (⟨∅⟩ : SigSet).sigs ∨ m = n)) ∧
      ((false : Bool) = false →
        st'.dispatcherMask = some ⟨catalogList.toFinset⟩) ∧
      (3 ∉ keysOf ([] : Registry Nat) →
        ∀ m : Nat, lookupMem st'.registry 3 m ↔ m = n.toNat) :=
  C1_notify_on_blocks_only_requested ⟨⟨∅⟩, [], 7, false, none⟩ 3 Signal.HUP
    (by decide)

/-- `regInsert` does not change the key list. -/
lemma keysOf_regInsert {α : Type} [DecidableEq α] (subs : Registry α)
    (c : ChanId) (x : α) : keysOf (regInsert subs c x) = keysOf subs := by
  unfold keysOf regInsert
  rw [List.map_map]
  apply List.map_congr_left
  intro p _
  by_cases hp : p.1 = c <;> simp [hp]

/-- The registry update of `notify_on` is idempotent per (sender, signal). -/
lemma regNotifyOn_idem {α : Type} [DecidableEq α] (subs : Registry α)
    (c : ChanId) (x : α) :
    regNotifyOn (regNotifyOn subs c x) c x = regNotifyOn subs c x := by
  by_cases hk : containsKey subs c
  · have hk2 : containsKey (regInsert subs c x) c = true := by
      rw [containsKey_iff, keysOf_regInsert]
      exact (containsKey_iff subs c).mp hk
    unfold regNotifyOn
    rw [if_pos hk, if_pos hk2]
    unfold regInsert
    rw [List.map_map]
    apply List.map_congr_left
    intro p _
    by_cases hp : p.1 = c <;> simp [hp, Finset.insert_idem]
  · have hmem : ∀ p ∈ subs, ¬ p.1 = c := by
      intro p hp he
      apply hk
      rw [containsKey_iff]
      exact List.mem_map.mpr ⟨p, hp, he⟩
    have hk2 : containsKey (subs ++ [(c, {x})]) c = true := by
      rw [containsKey_iff]
      unfold keysOf
      rw [List.map_append]
      exact List.mem_append.mpr (Or.inr (by simp))
    unfold regNotifyOn
    rw [if_neg hk, if_pos hk2]
    unfold regInsert
    rw [List.map_append]
    congr 1
    · have hfix : ∀ p ∈ subs,
          (if p.1 = c then (p.1, insert x p.2) else p) = id p := by
        intro p hp
        rw [if_neg (hmem p hp)]
        rfl
      rw [List.map_congr_left hfix, List.map_id]
    · simp [Finset.insert_eq_self.mpr (Finset.mem_singleton_self x)]

/-- A finite sequence of `notify_on` calls, in order. -/
def runNotifyOns (st : ProcState) (ops : List (ChanId × Signal)) :
    Option ProcState :=
  ops.foldlM (fun acc p => notify_on acc p.1 p.2) st

/-- `notify_on` on the hidden variant hits `unreachable!` inside `as_sig`. -/
lemma notify_on_nonexhaustive (st : ProcState) (c : ChanId) :
    notify_on st c Signal.__NonExhaustiveMatch = none := by
  unfold notify_on ensureInit
  by_cases hd : st.initDone
  · rw [if_pos hd, opt_some_bind]
    rfl
  · rw [if_neg hd, runInit_eq, opt_some_bind, opt_pure_bind]
    rfl

/-- Effect of a sequence of `notify_on` calls on the registry, relative to an
arbitrary starting state: lookups grow by exactly the subscribed pairs, keys
grow by exactly the subscribing senders, and key uniqueness is preserved. -/
lemma runNotifyOns_spec (ops : List (ChanId × Signal)) (st : ProcState)
    (h : ∀ p ∈ ops, p.2 ≠ Signal.__NonExhaustiveMatch) :
    ∃ st', runNotifyOns st ops = some st' ∧
      (∀ c m, lookupMem st'.registry c m ↔
        (lookupMem st.registry c m ∨
          ∃ s, (c, s) ∈ ops ∧ ∃ k, Signal.as_sig s = some k ∧ m = k.toNat)) ∧
      (∀ c, containsKey st'.registry c = true ↔
        (containsKey st.registry c = true ∨ c ∈ ops.map Prod.fst)) ∧
      ((keysOf st.registry).Nodup → (keysOf st'.registry).Nodup) := by
  induction ops generalizing st with
  | nil =>
    refine ⟨st, rfl, ?_, ?_, fun hd => hd⟩
    · intro c m
      simp
    · intro c
      simp
  | cons p ops ih =>
    obtain ⟨n, hn, -, -, -⟩ := as_sig_spec p.2 (h p (List.mem_cons_self p ops))
    obtain ⟨st', hrun, hmem, hck, hnd⟩ :=
      ih ⟨⟨st.mask.sigs ∪ {n}⟩,
          regNotifyOn st.registry p.1 n.toNat,
          st.nextChan, true,
          if st.initDone then st.dispatcherMask
          else some ⟨catalogList.toFinset⟩⟩
        (fun q hq => h q (List.mem_cons_of_mem p hq))
    refine ⟨st', ?_, ?_, ?_, ?_⟩
    · unfold runNotifyOns
      rw [List.foldlM_cons, notify_on_eq st p.1 p.2 n hn, opt_some_bind]
      exact hrun
    · intro c m
      rw [hmem c m]
      constructor
      · rintro (hstep | htail)
        · rcases (lookupMem_regNotifyOn st.registry p.1 n.toNat c m).mp
            hstep with hold | ⟨rfl, rfl⟩
          · exact Or.inl hold
          · refine Or.inr ⟨p.2, ?_, n, hn, rfl⟩
            rw [Prod.mk.eta]
            exact List.mem_cons_self p ops
        · obtain ⟨s, hs, k, hk, hmk⟩ := htail
          exact Or.inr ⟨s, List.mem_cons_of_mem p hs, k, hk, hmk⟩
      · rintro (hold | ⟨s, hs, k, hk, hmk⟩)
        · exact Or.inl
            ((lookupMem_regNotifyOn st.registry p.1 n.toNat c m).mpr
              (Or.inl hold))
        · rcases List.mem_cons.mp hs with he | htail
          · have hc : c = p.1 := by rw [← he]
            have hsp : s = p.2 := by rw [← he]
            have hkn : k = n := by
              rw [hsp, hn] at hk
              injection hk with h2
              exact h2.symm
            exact Or.inl
              ((lookupMem_regNotifyOn st.registry p.1 n.toNat c m).mpr
                (Or.inr ⟨hc, by rw [hmk, hkn]⟩))
          · exact Or.inr ⟨s, htail, k, hk, hmk⟩
    · intro c
      rw [hck c, List.map_cons, List.mem_cons]
      constructor
      · rintro (hstep | htail)
        · rcases (containsKey_regNotifyOn st.registry p.1 n.toNat c).mp hstep
            with hold | rfl
          · exact Or.inl hold
          · exact Or.inr (Or.inl rfl)
        · exact Or.inr (Or.inr htail)
      · rintro (hold | rfl | htail)
        · exact Or.inl
            ((containsKey_regNotifyOn st.registry p.1 n.toNat c).mpr
              (Or.inl hold))
        · exact Or.inl
            ((containsKey_regNotifyOn st.registry p.1 n.toNat p.1).mpr
              (Or.inr rfl))
        · exact Or.inr htail
    · intro hd
      exact hnd (nodup_regNotifyOn st.registry p.1 n.toNat hd)

/-- C3: starting from the empty registry, any finite sequence of `notify_on`
calls leaves each subscribing sender with exactly one entry whose set is the
union of all signal numbers it subscribed to; `notify_on` is idempotent per
(sender, signal) pair on the whole process state; and entries are never
removed. -/
theorem C3_registry_invariants :
    (∀ (ops : List (ChanId × Signal)) (mask0 : SigSet) (n0 : ChanId)
        (st' : ProcState),
      (∀ p ∈ ops, p.2 ≠ Signal.__NonExhaustiveMatch) →
      runNotifyOns ⟨mask0, [], n0, false, none⟩ ops = some st' →
      (keysOf st'.registry).Nodup ∧
      (∀ c, containsKey st'.registry c = true ↔ c ∈ ops.map Prod.fst) ∧
      (∀ c m, lookupMem st'.registry c m ↔
        ∃ s, (c, s) ∈ ops ∧ ∃ k, Signal.as_sig s = some k ∧ m = k.toNat)) ∧
    (∀ (st : ProcState) (c : ChanId) (s : Signal),
      s ≠ Signal.__NonExhaustiveMatch →
      Option.bind (notify_on st c s) (fun st2 => notify_on st2 c s) =
        notify_on st c s) ∧
    (∀ (st st2 : ProcState) (c c' : ChanId) (s : Signal),
      notify_on st c s = some st2 →
      containsKey st.registry c' = true →
      containsKey st2.registry c' = true) := by
  refine ⟨?_, ?_, ?_⟩
  · intro ops mask0 n0 st' hops hrun
    obtain ⟨st'', hrun'', hmem, hck, hnd⟩ :=
      runNotifyOns_spec ops ⟨mask0, [], n0, false, none⟩ hops
    rw [hrun] at hrun''
    injection hrun'' with he
    subst he
    refine ⟨hnd (by simp [keysOf]), ?_, ?_⟩
    · intro c
      rw [hck c]
      simp [containsKey]
    · intro c m
      rw [hmem c m]
      simp [lookupMem, regLookup]
  · intro st c s hne
    obtain ⟨n, hn, -, -, -⟩ := as_sig_spec s hne
    rw [notify_on_eq st c s n hn, opt_bind_some, notify_on_eq _ c s n hn]
    dsimp only
    rw [regNotifyOn_idem, Finset.union_assoc, Finset.union_self]
    rfl
  · intro st st2 c c' s hrun hck
    by_cases hne : s = Signal.__NonExhaustiveMatch
    · rw [hne, notify_on_nonexhaustive] at hrun
      exact Option.noConfusion hrun
    · obtain ⟨n, hn, -, -, -⟩ := as_sig_spec s hne
      rw [notify_on_eq st c s n hn] at hrun
      injection hrun with he
      rw [← he]
      exact (containsKey_regNotifyOn st.registry c n.toNat c').mpr
        (Or.inl hck)

/-- Witness for C3: one subscription from the empty registry, plus the
idempotence and never-removed parts at concrete states. -/
theorem C3_witness :
    ∃ st',
      runNotifyOns ⟨⟨∅⟩, [], 0, false, none⟩ [(4, Signal.INT)] = some st' ∧
      (keysOf st'.registry).Nodup ∧ containsKey st'.registry 4 = true ∧
      Option.bind (notify_on ⟨⟨∅⟩, [], 0, false, none⟩ 4 Signal.INT)
        (fun st2 => notify_on st2 4 Signal.INT) =
        notify_on ⟨⟨∅⟩, [], 0, false, none⟩ 4 Signal.INT ∧
      ∃ st2, notify_on st' 9 Signal.HUP = some st2 ∧
        containsKey st2.registry 4 = true := by
  have hrun : runNotifyOns ⟨⟨∅⟩, [], 0, false, none⟩ [(4, Signal.INT)] =
      some ⟨⟨(∅ : Finset Sig) ∪ {2}⟩,
        regNotifyOn ([] : Registry Nat) 4 (Int.toNat 2), 0, true,
        some ⟨catalogList.toFinset⟩⟩ := by
    unfold runNotifyOns
    rw [List.foldlM_cons,
      notify_on_eq ⟨⟨∅⟩, [], 0, false, none⟩ 4 Signal.INT 2 rfl,
      opt_some_bind, List.foldlM_nil]
    rfl
  obtain ⟨hnd, hck, -⟩ :=
    C3_registry_invariants.1 [(4, Signal.INT)] ⟨∅⟩ 0 _ (by decide) hrun
  have hstep := notify_on_eq
    (⟨⟨(∅ : Finset Sig) ∪ {2}⟩,
      regNotifyOn ([] : Registry Nat) 4 (Int.toNat 2), 0, true,
      some ⟨catalogList.toFinset⟩⟩ : ProcState) 9 Signal.HUP 1 rfl
  exact ⟨_, hrun, hnd, (hck 4).mpr (by decide),
    C3_registry_invariants.2.1 ⟨⟨∅⟩, [], 0, false, none⟩ 4 Signal.INT
      (by decide),
    _, hstep,
    C3_registry_invariants.2.2 _ _ 9 4 Signal.HUP hstep (by decide)⟩

/-- Catalog numbers always convert; companion to `as_sig_spec`. -/
lemma new_some_of_mem : ∀ sig ∈ catalogList,
    ∃ s : Signal, Signal.new sig = some s := by
  decide

/-- A channel outside the registry keys is untouched by the fan-out. -/
lemma sendFanout_not_mem_keys (v : Signal) (idx : Nat) (subs : Registry Nat)
    (chans : ChanId → Chan) (c : ChanId) (hc : c ∉ keysOf subs) :
    (sendFanout v idx subs chans).1 c = chans c := by
  induction subs generalizing chans with
  | nil => rfl
  | cons q rest ih =>
    obtain ⟨c0, sigs0⟩ := q
    have hc1 : ¬ c = c0 := fun e => hc (by rw [e]; exact List.mem_cons_self c0 _)
    have hcr : c ∉ keysOf rest := fun hm => hc (List.mem_cons_of_mem _ hm)
    by_cases hidx : idx ∈ sigs0
    · unfold sendFanout
      rw [if_pos hidx]
      show (sendFanout v idx rest
        (fun x => if x = c0 then trySend (chans c0) v else chans x)).1 c =
        chans c
      rw [ih _ hcr]
      exact if_neg hc1
    · unfold sendFanout
      rw [if_neg hidx]
      exact ih chans hcr

/-- The identities sent to, in registry order: exactly the entries whose set
contains the received signal number. -/
lemma sendFanout_sent (v : Signal) (idx : Nat) (subs : Registry Nat)
    (chans : ChanId → Chan) :
    (sendFanout v idx subs chans).2 =
      (subs.filter (fun p => decide (idx ∈ p.2))).map Prod.fst := by
  induction subs generalizing chans with
  | nil => rfl
  | cons q rest ih =>
    obtain ⟨c0, sigs0⟩ := q
    by_cases hidx : idx ∈ sigs0
    · unfold sendFanout
      rw [if_pos hidx]
      simp only [List.filter_cons]
      rw [if_pos (by simpa using hidx)]
      simp only [List.map_cons]
      rw [ih]
    · unfold sendFanout
      rw [if_neg hidx]
      simp only [List.filter_cons]
      rw [if_neg (by simpa using hidx)]
      exact ih chans

/-- Effect of the fan-out on the channel of each registered entry, when every
sender has a single entry: a non-blocking send when subscribed, nothing
otherwise. -/
lemma sendFanout_mem (v : Signal) (idx : Nat) (subs : Registry Nat)
    (chans : ChanId → Chan) (hnd : (keysOf subs).Nodup)
    (p : ChanId × Finset Nat) (hp : p ∈ subs) :
    (idx ∈ p.2 → (sendFanout v idx subs chans).1 p.1 =
      trySend (chans p.1) v) ∧
    (idx ∉ p.2 → (sendFanout v idx subs chans).1 p.1 = chans p.1) := by
  induction subs generalizing chans with
  | nil => cases hp
  | cons q rest ih =>
    obtain ⟨c0, sigs0⟩ := q
    have hnd0 : c0 ∉ keysOf rest := by
      have := hnd
      simp only [keysOf, List.map_cons, List.nodup_cons] at this
      exact this.1
    have hndr : (keysOf rest).Nodup := by
      have := hnd
      simp only [keysOf, List.map_cons, List.nodup_cons] at this
      exact this.2
    rcases List.mem_cons.mp hp with he | htail
    · constructor
      · intro hidx
        rw [he]
        show (sendFanout v idx ((c0, sigs0) :: rest) chans).1 c0 =
          trySend (chans c0) v
        unfold sendFanout
        rw [if_pos (by rw [he] at hidx; exact hidx)]
        rw [sendFanout_not_mem_keys v idx rest _ c0 hnd0]
        simp
      · intro hidx
        rw [he]
        show (sendFanout v idx ((c0, sigs0) :: rest) chans).1 c0 = chans c0
        unfold sendFanout
        rw [if_neg (by rw [he] at hidx; exact hidx)]
        exact sendFanout_not_mem_keys v idx rest chans c0 hnd0
    · have hne : p.1 ≠ c0 := by
        intro e
        exact hnd0 (e ▸ List.mem_map.mpr ⟨p, htail, rfl⟩)
      by_cases hidx : idx ∈ sigs0
      · constructor
        · intro hpidx
          show (sendFanout v idx ((c0, sigs0) :: rest) chans).1 p.1 =
            trySend (chans p.1) v
          unfold sendFanout
          rw [if_pos hidx]
          rw [(ih _ hndr htail).1 hpidx]
          rw [if_neg hne]
        · intro hpidx
          show (sendFanout v idx ((c0, sigs0) :: rest) chans).1 p.1 =
            chans p.1
          unfold sendFanout
          rw [if_pos hidx]
          rw [(ih _ hndr htail).2 hpidx]
          exact if_neg hne
      · constructor
        · intro hpidx
          show (sendFanout v idx ((c0, sigs0) :: rest) chans).1 p.1 =
            trySend (chans p.1) v
          unfold sendFanout
          rw [if_neg hidx]
          exact (ih chans hndr htail).1 hpidx
        · intro hpidx
          show (sendFanout v idx ((c0, sigs0) :: rest) chans).1 p.1 =
            chans p.1
          unfold sendFanout
          rw [if_neg hidx]
          exact (ih chans hndr htail).2 hpidx

/-- C2: for a signal returned by `wait()` (hence a catalog member) and any
registry with one entry per sender, one dispatch-loop iteration attempts a
non-blocking send of the mapped Signal to exactly the entries whose set
contains the signal number: subscribed entries get `trySend` (which silently
drops on a full buffer), everything else is untouched. -/
theorem C2_dispatch_fanout (subs : Registry Nat) (chans : ChanId → Chan)
    (sig : Sig) (hsig : sig ∈ catalogList) (hnd : (keysOf subs).Nodup) :
    ∃ v out, Signal.new sig = some v ∧
      dispatchOnce subs chans sig = some out ∧
      out.2 = (subs.filter (fun p => decide (sig.toNat ∈ p.2))).map Prod.fst ∧
      (∀ p ∈ subs, sig.toNat ∈ p.2 → out.1 p.1 = trySend (chans p.1) v) ∧
      (∀ p ∈ subs, sig.toNat ∉ p.2 → out.1 p.1 = chans p.1) ∧
      (∀ c, c ∉ keysOf subs → out.1 c = chans c) ∧
      (∀ p ∈ subs, sig.toNat ∈ p.2 →
        (chans p.1).cap ≤ (chans p.1).buf.length → out.1 p.1 = chans p.1) := by
  obtain ⟨v, hv⟩ := new_some_of_mem sig hsig
  refine ⟨v, sendFanout v sig.toNat subs chans, hv, ?_, ?_, ?_, ?_, ?_, ?_⟩
  · unfold dispatchOnce
    rw [hv]
    rfl
  · exact sendFanout_sent v sig.toNat subs chans
  · intro p hp hidx
    exact (sendFanout_mem v sig.toNat subs chans hnd p hp).1 hidx
  · intro p hp hidx
    exact (sendFanout_mem v sig.toNat subs chans hnd p hp).2 hidx
  · intro c hc
    exact sendFanout_not_mem_keys v sig.toNat subs chans c hc
  · intro p hp hidx hfull
    rw [(sendFanout_mem v sig.toNat subs chans hnd p hp).1 hidx]
    unfold trySend
    rw [if_neg (by omega)]

/-- Witness for C2: registry with a subscriber of INT (full 1-slot buffer)
and a subscriber of TERM; a received INT maps to `Signal.INT`, is attempted
only at the INT subscriber, and is dropped there because the buffer is full. -/
theorem C2_witness :
    ∃ v out, Signal.new 2 = some v ∧
      dispatchOnce [(0, {2}), (1, {15})]
        (fun j => if j = 0 then ⟨1, [Signal.HUP]⟩ else ⟨1, []⟩) 2 =
        some out ∧
      out.2 = [0] ∧ out.1 0 = ⟨1, [Signal.HUP]⟩ ∧ out.1 1 = ⟨1, []⟩ := by
  obtain ⟨v, out, hv, hrun, hsent, hmem, hnot, -, hdrop⟩ :=
    C2_dispatch_fanout [(0, {2}), (1, {15})]
      (fun j => if j = 0 then ⟨1, [Signal.HUP]⟩ else ⟨1, []⟩) 2
      (by decide) (by decide)
  refine ⟨v, out, hv, hrun, by rw [hsent]; rfl, ?_, ?_⟩
  · have := hdrop (0, {2}) (by decide) (by decide) (by decide)
    simpa using this
  · have := hnot (1, {15}) (by simp) (by decide)
    simpa using this

/-- C10: `notify` with an empty signal list returns a fresh channel of
capacity 100 with an empty buffer, changes neither the registry, the mask,
nor the lazy-init flag (only the fresh-channel counter advances), and the
dispatch fan-out never touches the fresh channel as long as it is not
registered, so the returned receiver can never yield a value. -/
theorem C10_notify_empty (st : ProcState) :
    notify st [] =
      some ({ st with nextChan := st.nextChan + 1 }, st.nextChan,
        ⟨100, []⟩) ∧
    ({ st with nextChan := st.nextChan + 1 } : ProcState).registry =
      st.registry ∧
    ({ st with nextChan := st.nextChan + 1 } : ProcState).mask = st.mask ∧
    ({ st with nextChan := st.nextChan + 1 } : ProcState).initDone =
      st.initDone ∧
    (st.nextChan ∉ keysOf st.registry →
      ∀ (v : Signal) (idx : Nat) (chans : ChanId → Chan),
        (sendFanout v idx st.registry chans).1 st.nextChan =
          chans st.nextChan) := by
  refine ⟨rfl, rfl, rfl, rfl, ?_⟩
  intro hc v idx chans
  exact sendFanout_not_mem_keys v idx st.registry chans st.nextChan hc

/-- Witness for C10 at a state with one registered sender. -/
theorem C10_witness :
    notify ⟨⟨∅⟩, [(0, {2})], 1, true, none⟩ [] =
      some (⟨⟨∅⟩, [(0, {2})], 2, true, none⟩, 1, ⟨100, []⟩) ∧
    (sendFanout Signal.INT 2 [(0, {2})]
      (fun _j => ⟨1, []⟩)).1 1 = ⟨1, []⟩ := by
  obtain ⟨hrun, -, -, -, hfan⟩ :=
    C10_notify_empty ⟨⟨∅⟩, [(0, {2})], 1, true, none⟩
  exact ⟨hrun, hfan (by decide) Signal.INT 2 (fun _j => ⟨1, []⟩)⟩

namespace Windows

/-- When every subscriber of the signal has buffer room, the callback's scan
completes and appends the signal to exactly the subscribed channels. -/
lemma winFanout_spec (sig : Signal) (subs : Registry Signal)
    (chans : ChanId → Chan) (hnd : (keysOf subs).Nodup)
    (hroom : ∀ p ∈ subs, sig ∈ p.2 →
      (chans p.1).buf.length < (chans p.1).cap) :
    ∃ f, winFanout sig subs chans = some f ∧
      (∀ p ∈ subs, sig ∈ p.2 →
        f p.1 = ⟨(chans p.1).cap, (chans p.1).buf ++ [sig]⟩) ∧
      (∀ p ∈ subs, sig ∉ p.2 → f p.1 = chans p.1) ∧
      (∀ c, c ∉ keysOf subs → f c = chans c) := by
  induction subs generalizing chans with
  | nil => exact ⟨chans, rfl, by simp, by simp, fun c _ => rfl⟩
  | cons q rest ih =>
    obtain ⟨c0, sigs0⟩ := q
    have hnd0 : c0 ∉ keysOf rest := by
      have := hnd
      simp only [keysOf, List.map_cons, List.nodup_cons] at this
      exact this.1
    have hndr : (keysOf rest).Nodup := by
      have := hnd
      simp only [keysOf, List.map_cons, List.nodup_cons] at this
      exact this.2
    by_cases hidx : sig ∈ sigs0
    · have hr0 := hroom (c0, sigs0) (List.mem_cons_self _ _) hidx
      have hsend : sendBlocking (chans c0) sig =
          some ⟨(chans c0).cap, (chans c0).buf ++ [sig]⟩ := by
        unfold sendBlocking
        rw [if_pos hr0]
      have hroom' : ∀ p ∈ rest, sig ∈ p.2 →
          ((fun x => if x = c0
              then (⟨(chans c0).cap, (chans c0).buf ++ [sig]⟩ : Chan)
              else chans x) p.1).buf.length <
            ((fun x => if x = c0
              then (⟨(chans c0).cap, (chans c0).buf ++ [sig]⟩ : Chan)
              else chans x) p.1).cap := by
        intro p hp hpidx
        have hne : p.1 ≠ c0 := by
          intro e
          exact hnd0 (e ▸ List.mem_map.mpr ⟨p, hp, rfl⟩)
        simp only [if_neg hne]
        exact hroom p (List.mem_cons_of_mem _ hp) hpidx
      obtain ⟨f, hf, fmem, fnot, fout⟩ :=
        ih (fun x => if x = c0
            then (⟨(chans c0).cap, (chans c0).buf ++ [sig]⟩ : Chan)
            else chans x) hndr hroom'
      refine ⟨f, ?_, ?_, ?_, ?_⟩
      · unfold winFanout
        rw [if_pos hidx, hsend, opt_some_bind]
        exact hf
      · intro p hp hpidx
        rcases List.mem_cons.mp hp with he | htail
        · have hc : p.1 = c0 := by rw [he]
          rw [hc, fout c0 hnd0, if_pos rfl]
        · have hne : p.1 ≠ c0 := by
            intro e
            exact hnd0 (e ▸ List.mem_map.mpr ⟨p, htail, rfl⟩)
          rw [fmem p htail hpidx]
          simp only [if_neg hne]
      · intro p hp hpidx
        rcases List.mem_cons.mp hp with he | htail
        · exact absurd (by rw [he]; exact hidx : sig ∈ p.2) hpidx
        · have hne : p.1 ≠ c0 := by
            intro e
            exact hnd0 (e ▸ List.mem_map.mpr ⟨p, htail, rfl⟩)
          rw [fnot p htail hpidx]
          exact if_neg hne
      · intro c hc
        have hne : c ≠ c0 :=
          fun e => hc (by rw [e]; exact List.mem_cons_self c0 _)
        have hcr : c ∉ keysOf rest :=
          fun hm => hc (List.mem_cons_of_mem _ hm)
        rw [fout c hcr]
        exact if_neg hne
    · obtain ⟨f, hf, fmem, fnot, fout⟩ := ih chans hndr
        (fun p hp hpidx => hroom p (List.mem_cons_of_mem _ hp) hpidx)
      refine ⟨f, ?_, ?_, ?_, ?_⟩
      · unfold winFanout
        rw [if_neg hidx]
        exact hf
      · intro p hp hpidx
        rcases List.mem_cons.mp hp with he | htail
        · exact absurd hpidx (by rw [he]; exact hidx)
        · exact fmem p htail hpidx
      · intro p hp hpidx
        rcases List.mem_cons.mp hp with he | htail
        · -- head not subscribed: untouched iff c0 ∉ keys rest
          have hc : p.1 = c0 := by rw [he]
          rw [hc]
          exact fout c0 hnd0
        · exact fnot p htail hpidx
      · intro c hc
        exact fout c (fun hm => hc (List.mem_cons_of_mem _ hm))

/-- A full subscriber of the signal blocks the callback's scan: the plain
`send` has no result, so the whole scan has none. -/
lemma winFanout_none (sig : Signal) (subs : Registry Signal)
    (chans : ChanId → Chan) (hnd : (keysOf subs).Nodup)
    (p : ChanId × Finset Signal) (hp : p ∈ subs) (hsig : sig ∈ p.2)
    (hfull : (chans p.1).cap ≤ (chans p.1).buf.length) :
    winFanout sig subs chans = none := by
  induction subs generalizing chans with
  | nil => cases hp
  | cons q rest ih =>
    obtain ⟨c0, sigs0⟩ := q
    have hnd0 : c0 ∉ keysOf rest := by
      have := hnd
      simp only [keysOf, List.map_cons, List.nodup_cons] at this
      exact this.1
    have hndr : (keysOf rest).Nodup := by
      have := hnd
      simp only [keysOf, List.map_cons, List.nodup_cons] at this
      exact this.2
    rcases List.mem_cons.mp hp with he | htail
    · have hc : p.1 = c0 := by rw [he]
      have hidx : sig ∈ sigs0 := by
        have := hsig
        rw [he] at this
        exact this
      have hsend : sendBlocking (chans c0) sig = none := by
        unfold sendBlocking
        rw [if_neg (by rw [hc] at hfull; omega)]
      unfold winFanout
      rw [if_pos hidx, hsend]
      rfl
    · have hne : p.1 ≠ c0 := by
        intro e
        exact hnd0 (e ▸ List.mem_map.mpr ⟨p, htail, rfl⟩)
      by_cases hidx : sig ∈ sigs0
      · cases hsend : sendBlocking (chans c0) sig with
        | none =>
          unfold winFanout
          rw [if_pos hidx, hsend]
          rfl
        | some ch =>
          unfold winFanout
          rw [if_pos hidx, hsend, opt_some_bind]
          exact ih _ hndr htail (by simp only [if_neg hne]; exact hfull)
      · unfold winFanout
        rw [if_neg hidx]
        exact ih chans hndr htail hfull

end Windows

/-- C9 counterexample: a subscriber of INT with a rendezvous (zero-capacity)
channel and INT in the blocked set; the callback's unconditional `send`
cannot complete, so the handler has no result (it blocks), instead of
dropping the value and reporting handled as the claim's non-blocking send
would. -/
theorem C9_counterexample :
    Windows.ctrl_handler ⟨{Signal.INT}, [(0, {Signal.INT})]⟩
      (fun _j => ⟨0, []⟩) 0 = none := by
  rfl

/-- C9 (amended): the callback maps the event code to a Signal; if it is not
in the process-wide blocked set it declines (returns FALSE) and sends
nothing; if it is, it scans the registry and performs an unconditional,
potentially blocking send to every subscriber whose set contains the signal:
when all such subscribers have buffer room the sends complete and the
callback reports handled (TRUE), but a full subscriber buffer blocks the
callback (no result) instead of dropping. -/
theorem C9_ctrl_handler_behavior (st : Windows.WinState)
    (chans : ChanId → Chan) (ct : Nat) (sig : Signal)
    (hsig : Windows.signalNew ct = some sig) :
    (sig ∉ st.blocked →
      Windows.ctrl_handler st chans ct = some (false, chans)) ∧
    (sig ∈ st.blocked → (keysOf st.registry).Nodup →
      ((∀ p ∈ st.registry, sig ∈ p.2 →
          (chans p.1).buf.length < (chans p.1).cap) →
        ∃ f, Windows.ctrl_handler st chans ct = some (true, f) ∧
          (∀ p ∈ st.registry, sig ∈ p.2 →
            f p.1 = ⟨(chans p.1).cap, (chans p.1).buf ++ [sig]⟩) ∧
          (∀ p ∈ st.registry, sig ∉ p.2 → f p.1 = chans p.1) ∧
          (∀ c, c ∉ keysOf st.registry → f c = chans c)) ∧
      (∀ p ∈ st.registry, sig ∈ p.2 →
        (chans p.1).cap ≤ (chans p.1).buf.length →
        Windows.ctrl_handler st chans ct = none)) := by
  constructor
  · intro hnb
    unfold Windows.ctrl_handler
    rw [hsig, opt_some_bind, if_pos hnb]
    rfl
  · intro hb hnd
    constructor
    · intro hroom
      obtain ⟨f, hf, fmem, fnot, fout⟩ :=
        Windows.winFanout_spec sig st.registry chans hnd hroom
      refine ⟨f, ?_, fmem, fnot, fout⟩
      unfold Windows.ctrl_handler
      rw [hsig, opt_some_bind, if_neg (not_not_intro hb), hf, opt_some_bind]
      rfl
    · intro p hp hpidx hfull
      unfold Windows.ctrl_handler
      rw [hsig, opt_some_bind, if_neg (not_not_intro hb),
        Windows.winFanout_none sig st.registry chans hnd p hp hpidx hfull]
      rfl

/-- Witness for C9 (amended): a non-blocked event declines; a blocked INT
with one subscriber with room is delivered and handled. -/
theorem C9_witness :
    Windows.ctrl_handler ⟨∅, []⟩ (fun _j => ⟨1, []⟩) 0 =
      some (false, fun _j => ⟨1, []⟩) ∧
    ∃ f, Windows.ctrl_handler ⟨{Signal.INT}, [(3, {Signal.INT})]⟩
        (fun _j => ⟨1, []⟩) 0 = some (true, f) ∧
      f 3 = ⟨1, [Signal.INT]⟩ := by
  have h1 := C9_ctrl_handler_behavior ⟨∅, []⟩ (fun _j => ⟨1, []⟩) 0
    Signal.INT rfl
  have h2 := C9_ctrl_handler_behavior ⟨{Signal.INT}, [(3, {Signal.INT})]⟩
    (fun _j => ⟨1, []⟩) 0 Signal.INT rfl
  refine ⟨h1.1 (by decide), ?_⟩
  obtain ⟨f, hf, fmem, -, -⟩ := (h2.2 (by decide) (by decide)).1 (by decide)
  refine ⟨f, hf, ?_⟩
  have hv := fmem (3, {Signal.INT}) (by decide) (by decide)
  simpa using hv

end ChanSignal

